import Mathlib

/-!
Shallow embedding of `src/treadmill/controller.py` (class `TreadmillController`):
the command codec, the telemetry decoder (`_notification_handler`), the
cancellation flag (`stop_event`) transitions of the controller methods, and the
workout scheduler (`start_workout`) as a trace-producing function.
-/

namespace Treadmill

/-- Opcode constants from the source. -/
def SPEED_OP_CODE : ℕ := 0x02

def START_OP_CODE : ℕ := 0x07

def STOP_PAUSE_OP_CODE : ℕ := 0x08

def STOP_HEX : ℕ := 0x01

def PAUSE_HEX : ℕ := 0x02

/-- Python `int()` applied to an exact rational (the `Decimal` argument):
truncation toward zero. -/
def pyInt (q : ℚ) : ℤ := if 0 ≤ q then ⌊q⌋ else ⌈q⌉

/-- `target_speed = int(speed_meters_per_sec * 100)` from `set_speed`. -/
def targetSpeed (v : ℚ) : ℤ := pyInt (v * 100)

/-- Python `int.to_bytes(2, byteorder="little")`: the two little-endian bytes
when the value fits in an unsigned 16-bit field, `none` for the
`OverflowError` raised otherwise (negative or ≥ 2^16). -/
def toBytes2LE (n : ℤ) : Option (List ℕ) :=
  if 0 ≤ n ∧ n < 65536 then some [n.toNat % 256, n.toNat / 256] else none

/-- The two little-endian bytes of a value already known to fit 16 bits. -/
def le16 (k : ℕ) : List ℕ := [k % 256, k / 256]

/-- Semantic commands of the controller. -/
inductive Command where
  | start
  | pause
  | stop
  | setSpeed (v : ℚ)
deriving DecidableEq

/-- Wire encoding of each command, as built by `start`, `_pause`, `stop` and
`set_speed`; `none` models the uncaught `OverflowError` of the byte
conversion in `set_speed`. -/
def encode : Command → Option (List ℕ)
  | .start => some [START_OP_CODE]
  | .pause => some [STOP_PAUSE_OP_CODE, PAUSE_HEX]
  | .stop => some [STOP_PAUSE_OP_CODE, STOP_HEX]
  | .setSpeed v => (toBytes2LE (targetSpeed v)).map (fun bs => SPEED_OP_CODE :: bs)

/-- Little-endian value of a byte list, as `int.from_bytes(bs, "little")`. -/
def leFromBytes : List ℕ → ℕ
  | [] => 0
  | b :: bs => b + 256 * leFromBytes bs

/-- Python slice `data[a:b]` for `a ≤ b` on a byte list: clips at the list's
end, never fails. -/
def pySlice (data : List ℕ) (a b : ℕ) : List ℕ := (data.drop a).take (b - a)

/-- The metrics record built by `_notification_handler`; field names follow the
source's dict keys (`time` is the spec's `elapsed_time`). -/
structure TelemetrySample where
  speed : ℚ
  distance : ℕ
  calories : ℕ
  time : ℕ
deriving DecidableEq

/-- The decoding performed by `_notification_handler` on a frame. -/
def decode (data : List ℕ) : TelemetrySample where
  speed := (leFromBytes (pySlice data 2 4) : ℚ) / 100
  distance := leFromBytes (pySlice data 4 11)
  calories := leFromBytes (pySlice data 11 13)
  time := leFromBytes (pySlice data 17 19)

/-- `_notification_handler`: decode the frame and put the sample on the
telemetry queue (unconditionally). -/
def notificationHandler (data : List ℕ) (queue : List TelemetrySample) :
    List TelemetrySample :=
  queue ++ [decode data]

/-- The observable events of a controller run: a GATT write of an encoded
command, the failure print of `_write_command`'s `except` branch, an
`asyncio.sleep`, and an uncaught exception (`OverflowError` from
`set_speed`'s byte conversion). -/
inductive Event where
  | send (c : Command)
  | report (c : Command)
  | sleep (n : ℕ)
  | raised
deriving DecidableEq

/-- `_write_command` with transport outcome `ok`: the write is attempted and a
transport exception is caught and printed, never propagated. -/
def writeEvents (ok : Bool) (c : Command) : List Event :=
  if ok then [.send c] else [.send c, .report c]

/-- The methods of the controller (plus the notification callback). -/
inductive Op where
  | start
  | pause
  | stop
  | setSpeed (v : ℚ)
  | subscribe
  | notify (data : List ℕ)
deriving DecidableEq

/-- One controller method run against a `stop_event` value `b`, with transport
outcome `ok` for its write (if any): the resulting `stop_event` value and the
events produced. `start` clears the flag before writing; `_pause` and `stop`
set it before writing; `set_speed` either raises in the byte conversion
(before any write) or writes; `subscribe` and the notification callback do
not touch the flag. -/
def runOp (ok : Bool) : Op → Bool → Bool × List Event
  | .start, _ => (false, writeEvents ok .start)
  | .pause, _ => (true, writeEvents ok .pause)
  | .stop, _ => (true, writeEvents ok .stop)
  | .setSpeed v, b =>
    match toBytes2LE (targetSpeed v) with
    | none => (b, [.raised])
    | some _ => (b, writeEvents ok (.setSpeed v))
  | .subscribe, b => (b, [])
  | .notify _, b => (b, [])

/-- The `stop_event` value after a controller method (writes succeeding). -/
def flagAfter (op : Op) (b : Bool) : Bool := (runOp true op b).1

/-- `asyncio.Event()` starts unset. -/
def initialFlag : Bool := false

/-- The scaled speed fits the unsigned 16-bit wire field (the byte conversion
of `set_speed` does not raise). -/
def speedOk (v : ℚ) : Prop := 0 ≤ targetSpeed v ∧ targetSpeed v < 65536

/-- The `for interval in intervals` loop of `start_workout`. `okW j` is the
transport outcome of iteration `j`'s write, `flag j` the value
`stop_event.is_set()` returns at iteration `j`'s check. Returns the events of
the loop and `true` unless an uncaught exception ended it. -/
def workoutLoop (okW flag : ℕ → Bool) : ℕ → List (ℚ × ℕ) → List Event × Bool
  | _, [] => ([], true)
  | k, (v, d) :: rest =>
    if flag k then ([], true)
    else
      match toBytes2LE (targetSpeed v) with
      | none => ([.raised], false)
      | some _ =>
        let r := workoutLoop okW flag (k + 1) rest
        (writeEvents (okW k) (.setSpeed v) ++ .sleep d :: r.1, r.2)

/-- `start_workout`: `start()`, 5-second warm-up sleep, the interval loop, and
`_pause()` — the latter only when the loop did not raise, since the source has
no `try`/`finally` around it. `okS`, `okP`, `okW` are the transport outcomes
of the start write, the pause write and each loop write. -/
def startWorkoutTrace (okS okP : Bool) (okW flag : ℕ → Bool)
    (intervals : List (ℚ × ℕ)) : List Event :=
  let r := workoutLoop okW flag 0 intervals
  writeEvents okS .start ++ .sleep 5 :: r.1 ++ (if r.2 then writeEvents okP .pause else [])

/-- The events of a run of the loop body over `intervals` with every check
false and every write succeeding. -/
def intervalEvents (intervals : List (ℚ × ℕ)) : List Event :=
  intervals.flatMap (fun p => [.send (.setSpeed p.1), .sleep p.2])

/-- `true` exactly on the failure-print events. -/
def Event.isReport : Event → Bool
  | .report _ => true
  | _ => false

/-- A trace with the failure prints removed. -/
def eraseReports (evts : List Event) : List Event :=
  evts.filter (fun e => !e.isReport)

/-- Seconds an event suspends for. -/
def eventDuration : Event → ℕ
  | .sleep n => n
  | _ => 0

/-- Total suspended time of a trace (writes modelled as instantaneous). -/
def traceDuration (evts : List Event) : ℕ := (evts.map eventDuration).sum

/-- Elapsed time at which the loop's check number `k` happens: the warm-up
plus the durations of the intervals already run. -/
def checkTime (intervals : List (ℚ × ℕ)) (k : ℕ) : ℕ :=
  5 + ((intervals.take k).map Prod.snd).sum

/-- The `stop_event` observations produced by an external `pause`/`stop` at
elapsed time `t`: the check at `checkTime k < t` still sees the flag clear,
every later check sees it set. -/
def flagSetAtTime (intervals : List (ℚ × ℕ)) (t : ℕ) : ℕ → Bool :=
  fun k => decide (t ≤ checkTime intervals k)

lemma targetSpeed_div100 (k : ℕ) : targetSpeed ((k : ℚ) / 100) = (k : ℤ) := by
  unfold targetSpeed pyInt
  rw [div_mul_cancel₀ _ (by norm_num : (100 : ℚ) ≠ 0)]
  rw [if_pos (by exact_mod_cast Nat.zero_le k)]
  exact Int.floor_natCast k

lemma toBytes2LE_natCast (k : ℕ) (hk : k < 65536) :
    toBytes2LE ((k : ℕ) : ℤ) = some (le16 k) := by
  unfold toBytes2LE le16
  rw [if_pos ⟨Int.natCast_nonneg k, by exact_mod_cast hk⟩]
  simp [Int.toNat_natCast]

lemma leFromBytes_le16 (k : ℕ) : leFromBytes (le16 k) = k := by
  simp only [le16, leFromBytes]
  omega

lemma leFromBytes_replicate_zero (m : ℕ) : leFromBytes (List.replicate m 0) = 0 := by
  induction m with
  | zero => rfl
  | succ m ih => simp [List.replicate_succ, leFromBytes, ih]

lemma leFromBytes_append_zeros (xs : List ℕ) (m : ℕ) :
    leFromBytes (xs ++ List.replicate m 0) = leFromBytes xs := by
  induction xs with
  | nil => simpa using leFromBytes_replicate_zero m
  | cons b bs ih => simp [leFromBytes, ih]

lemma pySlice_append_replicate_zero (data : List ℕ) (m a b : ℕ) :
    ∃ j, pySlice (data ++ List.replicate m 0) a b = pySlice data a b ++ List.replicate j 0 := by
  unfold pySlice
  rw [List.drop_append_eq_append_drop, List.drop_replicate,
    List.take_append_eq_append_take, List.take_replicate]
  exact ⟨_, rfl⟩

lemma decode_append_zeros (data : List ℕ) (m : ℕ) :
    decode (data ++ List.replicate m 0) = decode data := by
  obtain ⟨j1, h1⟩ := pySlice_append_replicate_zero data m 2 4
  obtain ⟨j2, h2⟩ := pySlice_append_replicate_zero data m 4 11
  obtain ⟨j3, h3⟩ := pySlice_append_replicate_zero data m 11 13
  obtain ⟨j4, h4⟩ := pySlice_append_replicate_zero data m 17 19
  simp [decode, h1, h2, h3, h4, leFromBytes_append_zeros]

/-- C1: `encode` maps `Start` to `[0x07]`, `Pause` to `[0x08, 0x02]`, `Stop` to
`[0x08, 0x01]`, and every in-range two-decimal fixed-point speed `k / 100` to
`[0x02]` followed by the little-endian 16-bit value `round(v * 100) = k`; in
particular `SetSpeed(3.00)` encodes to `[0x02, 0x2C, 0x01]`. -/
theorem C1_encode_wire_bytes :
    encode .start = some [0x07] ∧
    encode .pause = some [0x08, 0x02] ∧
    encode .stop = some [0x08, 0x01] ∧
    (∀ k : ℕ, k ≤ 65535 →
      round ((k : ℚ) / 100 * 100) = (k : ℤ) ∧
      encode (.setSpeed ((k : ℚ) / 100)) = some (0x02 :: le16 k)) ∧
    encode (.setSpeed 3) = some [0x02, 0x2C, 0x01] := by
  refine ⟨rfl, rfl, rfl, ?_, ?_⟩
  · intro k hk
    constructor
    · rw [div_mul_cancel₀ _ (by norm_num : (100 : ℚ) ≠ 0)]
      exact round_natCast k
    · simp [encode, targetSpeed_div100, toBytes2LE_natCast k (by omega), SPEED_OP_CODE]
  · norm_num [encode, toBytes2LE, targetSpeed, pyInt, SPEED_OP_CODE]
    decide

/-- C2: on every frame of at least 19 bytes, `decode` reads the little-endian
unsigned fields speed = bytes [2,4) / 100, distance = bytes [4,11),
calories = bytes [11,13), elapsed time = bytes [17,19); in particular the
spec's fixture frame decodes to speed 3, distance 10, calories 5, time 60. -/
theorem C2_decode_fixed_fields :
    (∀ (a0 a1 s0 s1 d0 d1 d2 d3 d4 d5 d6 c0 c1 p0 p1 p2 p3 t0 t1 : ℕ)
      (rest : List ℕ),
      decode ([a0, a1, s0, s1, d0, d1, d2, d3, d4, d5, d6, c0, c1,
          p0, p1, p2, p3, t0, t1] ++ rest) =
        { speed := ((s0 + 256 * s1 : ℕ) : ℚ) / 100
          distance := d0 + 256 * d1 + 256 ^ 2 * d2 + 256 ^ 3 * d3 +
            256 ^ 4 * d4 + 256 ^ 5 * d5 + 256 ^ 6 * d6
          calories := c0 + 256 * c1
          time := t0 + 256 * t1 }) ∧
    decode [0, 0, 0x2C, 0x01, 0x0A, 0, 0, 0, 0, 0, 0, 0x05, 0x00,
        0, 0, 0, 0, 0x3C, 0x00] =
      { speed := 3, distance := 10, calories := 5, time := 60 } := by
  constructor
  · intro a0 a1 s0 s1 d0 d1 d2 d3 d4 d5 d6 c0 c1 p0 p1 p2 p3 t0 t1 rest
    have h1 : pySlice ([a0, a1, s0, s1, d0, d1, d2, d3, d4, d5, d6, c0, c1,
        p0, p1, p2, p3, t0, t1] ++ rest) 2 4 = [s0, s1] := rfl
    have h2 : pySlice ([a0, a1, s0, s1, d0, d1, d2, d3, d4, d5, d6, c0, c1,
        p0, p1, p2, p3, t0, t1] ++ rest) 4 11 = [d0, d1, d2, d3, d4, d5, d6] := rfl
    have h3 : pySlice ([a0, a1, s0, s1, d0, d1, d2, d3, d4, d5, d6, c0, c1,
        p0, p1, p2, p3, t0, t1] ++ rest) 11 13 = [c0, c1] := rfl
    have h4 : pySlice ([a0, a1, s0, s1, d0, d1, d2, d3, d4, d5, d6, c0, c1,
        p0, p1, p2, p3, t0, t1] ++ rest) 17 19 = [t0, t1] := rfl
    simp only [decode, h1, h2, h3, h4, leFromBytes, TelemetrySample.mk.injEq]
    refine ⟨?_, ?_, ?_, ?_⟩ <;> push_cast <;> ring
  · norm_num [decode, pySlice, leFromBytes]

/-- C3 counterexample: on the empty frame (shorter than 19 bytes) the
notification handler does not fail and does not drop the notification — it
appends the all-zero sample to the telemetry queue. -/
theorem C3_counterexample_short_frame_enqueued :
    notificationHandler [] [] = [{ speed := 0, distance := 0, calories := 0, time := 0 }] := by
  norm_num [notificationHandler, decode, pySlice, leFromBytes]

/-- C3 amended: `decode` performs no length check; a frame shorter than 19
bytes is not rejected — its out-of-range slices are clipped (missing bytes
read as zero, as if the frame were zero-padded to 19 bytes), a sample is
still produced, appended to the telemetry queue, and the subscription
continues. -/
theorem C3_short_frame_zero_padded :
    ∀ (data : List ℕ) (queue : List TelemetrySample), data.length < 19 →
      notificationHandler data queue =
        queue ++ [decode (data ++ List.replicate (19 - data.length) 0)] := by
  intro data queue _
  rw [decode_append_zeros]
  rfl

/-- C3 witness: the two-byte frame `[1, 2]` is decoded as if zero-padded and
its sample is appended to the empty queue. -/
theorem C3_witness :
    notificationHandler [1, 2] [] = [decode ([1, 2] ++ List.replicate 17 0)] := by
  have h := C3_short_frame_zero_padded [1, 2] [] (by norm_num)
  simpa using h

lemma toBytes2LE_of_speedOk {v : ℚ} (h : speedOk v) :
    toBytes2LE (targetSpeed v) = some (le16 (targetSpeed v).toNat) := by
  unfold toBytes2LE le16
  rw [if_pos ⟨h.1, h.2⟩]

lemma workoutLoop_no_cancel (flag : ℕ → Bool) (k0 : ℕ) (intervals : List (ℚ × ℕ))
    (hflag : ∀ j, j < intervals.length → flag (k0 + j) = false)
    (hok : ∀ p ∈ intervals, speedOk p.1) :
    workoutLoop (fun _ => true) flag k0 intervals = (intervalEvents intervals, true) := by
  induction intervals generalizing k0 with
  | nil => simp [workoutLoop, intervalEvents]
  | cons p rest ih =>
    obtain ⟨v, d⟩ := p
    have hf0 : flag k0 = false := by simpa using hflag 0 (by simp)
    have hv : speedOk v := hok (v, d) (by simp)
    have ihr := ih (k0 + 1)
      (fun j hj => by
        rw [show k0 + 1 + j = k0 + (j + 1) from by omega]
        exact hflag (j + 1) (by simpa using Nat.succ_lt_succ hj))
      (fun q hq => hok q (by simp [hq]))
    simp [workoutLoop, hf0, toBytes2LE_of_speedOk hv, ihr, writeEvents, intervalEvents]

lemma workoutLoop_cancel_at (flag : ℕ → Bool) (k0 m : ℕ) (intervals : List (ℚ × ℕ))
    (hm : m < intervals.length)
    (hflag : ∀ j, j < m → flag (k0 + j) = false)
    (hok : ∀ p ∈ intervals.take m, speedOk p.1)
    (hset : flag (k0 + m) = true) :
    workoutLoop (fun _ => true) flag k0 intervals =
      (intervalEvents (intervals.take m), true) := by
  induction intervals generalizing k0 m with
  | nil => simp at hm
  | cons p rest ih =>
    obtain ⟨v, d⟩ := p
    cases m with
    | zero =>
      have hf0 : flag k0 = true := by simpa using hset
      simp [workoutLoop, hf0, intervalEvents]
    | succ m =>
      have hf0 : flag k0 = false := by simpa using hflag 0 (Nat.succ_pos m)
      have hv : speedOk v := hok (v, d) (by simp)
      have ihr := ih (k0 + 1) m (by simpa using Nat.lt_of_succ_lt_succ hm)
        (fun j hj => by
          rw [show k0 + 1 + j = k0 + (j + 1) from by omega]
          exact hflag (j + 1) (by simpa using Nat.succ_lt_succ hj))
        (fun q hq => hok q (by simp [List.take_succ_cons, hq]))
        (by rw [show k0 + 1 + m = k0 + (m + 1) from by omega]; exact hset)
      simp [workoutLoop, hf0, toBytes2LE_of_speedOk hv, ihr, writeEvents,
        intervalEvents, List.take_succ_cons]

/-- C4 counterexample: for the one-interval list with speed 700 m/s (scaled
value 70000, outside the 16-bit field) and no cancellation, the run raises in
`set_speed`'s byte conversion after the warm-up: no `SetSpeed` is sent and no
final `Pause` is sent, so the claimed sequence does not hold for every
interval list. -/
theorem C4_counterexample_overflow_aborts :
    startWorkoutTrace true true (fun _ => true) (fun _ => false) [((700 : ℚ), 1)] =
      [Event.send .start, Event.sleep 5, Event.raised] ∧
    (startWorkoutTrace true true (fun _ => true) (fun _ => false) [((700 : ℚ), 1)] =
      Event.send .start :: Event.sleep 5 ::
        intervalEvents [((700 : ℚ), 1)] ++ [Event.send .pause]) = False := by
  have h700 : toBytes2LE (targetSpeed 700) = none := by
    norm_num [targetSpeed, pyInt, toBytes2LE]
  have htr : startWorkoutTrace true true (fun _ => true) (fun _ => false) [((700 : ℚ), 1)] =
      [Event.send .start, Event.sleep 5, Event.raised] := by
    simp [startWorkoutTrace, workoutLoop, h700, writeEvents]
  refine ⟨htr, eq_false ?_⟩
  intro h
  rw [htr] at h
  simp [intervalEvents] at h

/-- C4 amended: for every interval list all of whose speeds scale into the
16-bit wire field, `start_workout` with no cancellation performs exactly:
send `Start`, sleep 5 seconds, then for each interval in order send
`SetSpeed` and sleep its duration, and finally send `Pause`; for the empty
list only `Start`, the warm-up sleep and `Pause`. -/
theorem C4_workout_sequence :
    ∀ (intervals : List (ℚ × ℕ)), (∀ p ∈ intervals, speedOk p.1) →
      startWorkoutTrace true true (fun _ => true) (fun _ => false) intervals =
        Event.send .start :: Event.sleep 5 ::
          intervalEvents intervals ++ [Event.send .pause] := by
  intro intervals hok
  unfold startWorkoutTrace
  rw [workoutLoop_no_cancel (fun _ => false) 0 intervals (fun j _ => rfl) hok]
  simp [writeEvents]

/-- C4 witness: the two-interval plan of the spec's scenario produces exactly
`Start`, 5 s sleep, `SetSpeed 2`, 10 s sleep, `SetSpeed 3`, 10 s sleep,
`Pause`. -/
theorem C4_witness :
    startWorkoutTrace true true (fun _ => true) (fun _ => false)
        [((2 : ℚ), 10), ((3 : ℚ), 10)] =
      [Event.send .start, Event.sleep 5, Event.send (.setSpeed 2), Event.sleep 10,
        Event.send (.setSpeed 3), Event.sleep 10, Event.send .pause] := by
  have hok : ∀ p ∈ [((2 : ℚ), 10), ((3 : ℚ), 10)], speedOk p.1 := by
    intro p hp
    simp only [List.mem_cons, List.not_mem_nil, or_false] at hp
    rcases hp with rfl | rfl <;> norm_num [speedOk, targetSpeed, pyInt]
  simpa [intervalEvents] using
    C4_workout_sequence [((2 : ℚ), 10), ((3 : ℚ), 10)] hok

/-- C5: if the `stop_event` flag is set when the scheduler reaches the check
at the top of interval `k`'s loop iteration (the earlier checks having seen
it clear), the loop breaks there: neither interval `k`'s `SetSpeed` nor any
later interval's is ever sent, and `Pause` is still sent afterwards. -/
theorem C5_cancel_skips_remaining :
    ∀ (flag : ℕ → Bool) (intervals : List (ℚ × ℕ)) (k : ℕ),
      k < intervals.length →
      (∀ j, j < k → flag j = false) →
      (∀ p ∈ intervals.take k, speedOk p.1) →
      flag k = true →
      startWorkoutTrace true true (fun _ => true) flag intervals =
        Event.send .start :: Event.sleep 5 ::
          intervalEvents (intervals.take k) ++ [Event.send .pause] := by
  intro flag intervals k hk hflag hok hset
  unfold startWorkoutTrace
  rw [workoutLoop_cancel_at flag 0 k intervals hk
    (fun j hj => by simpa using hflag j hj) hok (by simpa using hset)]
  simp [writeEvents]

/-- C5 witness: with the flag observed set at the second check, the second
interval's `SetSpeed` is never sent and `Pause` still ends the trace. -/
theorem C5_witness :
    startWorkoutTrace true true (fun _ => true) (fun j => decide (1 ≤ j))
        [((2 : ℚ), 10), ((3 : ℚ), 10)] =
      [Event.send .start, Event.sleep 5, Event.send (.setSpeed 2), Event.sleep 10,
        Event.send .pause] := by
  have h := C5_cancel_skips_remaining (fun j => decide (1 ≤ j))
    [((2 : ℚ), 10), ((3 : ℚ), 10)] 1 (by norm_num)
    (fun j hj => by
      have hj0 : j = 0 := by omega
      subst hj0
      rfl)
    (by
      intro p hp
      have hp' : p = ((2 : ℚ), 10) := by
        simpa using hp
      subst hp'
      norm_num [speedOk, targetSpeed, pyInt])
    (by rfl)
  rw [h]
  rfl

/-- C6: the `stop_event` flag starts clear; `_pause` and `stop` set it,
`start` clears it, `set_speed`, `subscribe` and the notification callback
leave it unchanged; and from any state, `start` is the only operation after
which the flag is clear unless it was already clear. -/
theorem C6_flag_lifecycle :
    initialFlag = false ∧
    (∀ b, flagAfter .pause b = true) ∧
    (∀ b, flagAfter .stop b = true) ∧
    (∀ b, flagAfter .start b = false) ∧
    (∀ b v, flagAfter (.setSpeed v) b = b) ∧
    (∀ b, flagAfter .subscribe b = b) ∧
    (∀ b data, flagAfter (.notify data) b = b) ∧
    (∀ b op, flagAfter op b = false ↔ op = .start ∨
      (b = false ∧ op ≠ .pause ∧ op ≠ .stop)) := by
  refine ⟨rfl, fun b => rfl, fun b => rfl, fun b => rfl, ?_, fun b => rfl,
    fun b data => rfl, ?_⟩
  · intro b v
    cases h : toBytes2LE (targetSpeed v) <;> simp [flagAfter, runOp, h]
  · intro b op
    cases op with
    | start => simp [flagAfter, runOp]
    | pause => simp [flagAfter, runOp]
    | stop => simp [flagAfter, runOp]
    | setSpeed v =>
      cases h : toBytes2LE (targetSpeed v) <;> simp [flagAfter, runOp, h]
    | subscribe => simp [flagAfter, runOp]
    | notify data => simp [flagAfter, runOp]

/-- C7: for every two-decimal fixed-point speed `k / 100` with `k ≤ 65535`,
embedding the two-byte speed field of `encode (SetSpeed (k / 100))` at offset
[2,4) of a 19-byte frame makes `decode` return exactly that speed. -/
theorem C7_speed_roundtrip :
    ∀ (k : ℕ), k ≤ 65535 → ∀ (a0 a1 : ℕ) (rest : List ℕ), rest.length = 15 →
      encode (.setSpeed ((k : ℚ) / 100)) = some (SPEED_OP_CODE :: le16 k) ∧
      ([a0, a1] ++ le16 k ++ rest).length = 19 ∧
      (decode ([a0, a1] ++ le16 k ++ rest)).speed = (k : ℚ) / 100 := by
  intro k hk a0 a1 rest hrest
  refine ⟨?_, ?_, ?_⟩
  · simp [encode, targetSpeed_div100, toBytes2LE_natCast k (by omega)]
  · simp [le16, hrest]
  · have hs : pySlice (a0 :: a1 :: (le16 k ++ rest)) 2 4 = le16 k := rfl
    simp [decode, hs, leFromBytes_le16]

/-- C7 witness: speed 3.00 m/s (scaled value 300) survives the round trip
through the speed field of a 19-byte frame. -/
theorem C7_witness :
    encode (.setSpeed (((300 : ℕ) : ℚ) / 100)) = some (SPEED_OP_CODE :: le16 300) ∧
    ([0, 0] ++ le16 300 ++ List.replicate 15 0).length = 19 ∧
    (decode ([0, 0] ++ le16 300 ++ List.replicate 15 0)).speed = ((300 : ℕ) : ℚ) / 100 :=
  C7_speed_roundtrip 300 (by norm_num) 0 0 (List.replicate 15 0) (by simp)

lemma traceDuration_cons (e : Event) (evts : List Event) :
    traceDuration (e :: evts) = eventDuration e + traceDuration evts := by
  simp [traceDuration]

lemma traceDuration_append (xs ys : List Event) :
    traceDuration (xs ++ ys) = traceDuration xs + traceDuration ys := by
  simp [traceDuration]

lemma traceDuration_intervalEvents (intervals : List (ℚ × ℕ)) :
    traceDuration (intervalEvents intervals) = (intervals.map Prod.snd).sum := by
  induction intervals with
  | nil => rfl
  | cons p rest ih =>
    obtain ⟨v, d⟩ := p
    rw [show intervalEvents ((v, d) :: rest) =
      Event.send (.setSpeed v) :: Event.sleep d :: intervalEvents rest from by
        simp [intervalEvents]]
    rw [traceDuration_cons, traceDuration_cons, ih]
    simp [eventDuration]

lemma checkTime_le (intervals : List (ℚ × ℕ)) {j k : ℕ} (h : j ≤ k) :
    checkTime intervals j ≤ checkTime intervals k := by
  unfold checkTime
  apply Nat.add_le_add_left
  have htake : intervals.take j = (intervals.take k).take j := by
    rw [List.take_take, Nat.min_eq_left h]
  rw [htake]
  conv_rhs => rw [← List.take_append_drop j (intervals.take k)]
  rw [List.map_append, List.sum_append]
  exact Nat.le_add_right _ _

/-- C8 counterexample: with plan `[(2, 10), (3, 10)]` and the cancellation
flag set at elapsed time 6 — one second into the first interval's wait — the
scheduler does not stop within a second: it completes the interval's full
10-second sleep and issues `Pause` only at elapsed time 15. -/
theorem C8_counterexample_full_sleep :
    checkTime [((2 : ℚ), 10), ((3 : ℚ), 10)] 0 < 6 ∧
    traceDuration (startWorkoutTrace true true (fun _ => true)
      (flagSetAtTime [((2 : ℚ), 10), ((3 : ℚ), 10)] 6) [((2 : ℚ), 10), ((3 : ℚ), 10)]) = 15 ∧
    ¬ traceDuration (startWorkoutTrace true true (fun _ => true)
      (flagSetAtTime [((2 : ℚ), 10), ((3 : ℚ), 10)] 6)
        [((2 : ℚ), 10), ((3 : ℚ), 10)]) ≤ 6 + 1 := by
  have hfl : ∀ j, j < 1 →
      flagSetAtTime [((2 : ℚ), 10), ((3 : ℚ), 10)] 6 (0 + j) = false := by
    intro j hj
    have hj0 : j = 0 := by omega
    subst hj0
    rfl
  have ht1 : ([((2 : ℚ), 10), ((3 : ℚ), 10)]).take 1 = [((2 : ℚ), 10)] := rfl
  have hok : ∀ p ∈ ([((2 : ℚ), 10), ((3 : ℚ), 10)]).take 1, speedOk p.1 := by
    intro p hp
    rw [ht1] at hp
    have hp' : p = ((2 : ℚ), 10) := by simpa using hp
    subst hp'
    norm_num [speedOk, targetSpeed, pyInt]
  have hset : flagSetAtTime [((2 : ℚ), 10), ((3 : ℚ), 10)] 6 (0 + 1) = true := rfl
  have hloop := workoutLoop_cancel_at (flagSetAtTime [((2 : ℚ), 10), ((3 : ℚ), 10)] 6)
    0 1 [((2 : ℚ), 10), ((3 : ℚ), 10)] (by norm_num) hfl hok hset
  have hdur : traceDuration (startWorkoutTrace true true (fun _ => true)
      (flagSetAtTime [((2 : ℚ), 10), ((3 : ℚ), 10)] 6)
        [((2 : ℚ), 10), ((3 : ℚ), 10)]) = 15 := by
    unfold startWorkoutTrace
    rw [hloop, ht1]
    simp [writeEvents, intervalEvents, traceDuration, eventDuration]
  exact ⟨by norm_num [checkTime], hdur, by rw [hdur]; norm_num⟩

/-- C8 amended: the interval sleeps are single uninterruptible suspensions —
the flag is observed only at the loop-boundary checks. If the flag is set at
time `t` strictly inside interval `k`'s wait, the scheduler still completes
that wait in full: it runs intervals 0..k, sends `Pause` at the end of
interval `k`'s wait, and its stop latency is the wait's remaining duration,
not one second. -/
theorem C8_flag_observed_at_interval_end :
    ∀ (intervals : List (ℚ × ℕ)) (t k : ℕ),
      k < intervals.length →
      (∀ p ∈ intervals.take (k + 1), speedOk p.1) →
      checkTime intervals k < t →
      t ≤ checkTime intervals (k + 1) →
      startWorkoutTrace true true (fun _ => true) (flagSetAtTime intervals t) intervals =
        Event.send .start :: Event.sleep 5 ::
          intervalEvents (intervals.take (k + 1)) ++ [Event.send .pause] ∧
      traceDuration (startWorkoutTrace true true (fun _ => true)
        (flagSetAtTime intervals t) intervals) = checkTime intervals (k + 1) := by
  intro intervals t k hk hok hlo hhi
  have hflagj : ∀ j, j < k + 1 → flagSetAtTime intervals t j = false := by
    intro j hj
    have hle : checkTime intervals j ≤ checkTime intervals k :=
      checkTime_le intervals (by omega)
    simp only [flagSetAtTime, decide_eq_false_iff_not]
    omega
  have htr : startWorkoutTrace true true (fun _ => true) (flagSetAtTime intervals t)
      intervals = Event.send .start :: Event.sleep 5 ::
        intervalEvents (intervals.take (k + 1)) ++ [Event.send .pause] := by
    rcases Nat.lt_or_ge (k + 1) intervals.length with hlen | hlen
    · have hset : flagSetAtTime intervals t (k + 1) = true := by
        simp only [flagSetAtTime, decide_eq_true_eq]
        exact hhi
      unfold startWorkoutTrace
      rw [workoutLoop_cancel_at _ 0 (k + 1) intervals hlen
        (fun j hj => by simpa using hflagj j hj) hok (by simpa using hset)]
      simp [writeEvents]
    · have htk : intervals.take (k + 1) = intervals := List.take_of_length_le hlen
      rw [htk] at hok
      unfold startWorkoutTrace
      rw [workoutLoop_no_cancel _ 0 intervals
        (fun j hj => by simpa using hflagj j (by omega)) hok]
      rw [htk]
      simp [writeEvents]
  refine ⟨htr, ?_⟩
  rw [htr, traceDuration_append, traceDuration_cons, traceDuration_cons,
    traceDuration_intervalEvents]
  simp [eventDuration, traceDuration, checkTime]

/-- C8 witness: plan `[(2, 10), (3, 10)]`, flag set at time 6 during the
first interval's wait: the first interval runs in full and `Pause` goes out
at elapsed time 15. -/
theorem C8_witness :
    startWorkoutTrace true true (fun _ => true)
        (flagSetAtTime [((2 : ℚ), 10), ((3 : ℚ), 10)] 6) [((2 : ℚ), 10), ((3 : ℚ), 10)] =
      [Event.send .start, Event.sleep 5, Event.send (.setSpeed 2), Event.sleep 10,
        Event.send .pause] ∧
    traceDuration (startWorkoutTrace true true (fun _ => true)
      (flagSetAtTime [((2 : ℚ), 10), ((3 : ℚ), 10)] 6) [((2 : ℚ), 10), ((3 : ℚ), 10)]) = 15 := by
  have hok : ∀ p ∈ ([((2 : ℚ), 10), ((3 : ℚ), 10)]).take (0 + 1), speedOk p.1 := by
    intro p hp
    rw [show ([((2 : ℚ), 10), ((3 : ℚ), 10)]).take (0 + 1) = [((2 : ℚ), 10)] from rfl] at hp
    have hp' : p = ((2 : ℚ), 10) := by simpa using hp
    subst hp'
    norm_num [speedOk, targetSpeed, pyInt]
  have h := C8_flag_observed_at_interval_end [((2 : ℚ), 10), ((3 : ℚ), 10)] 6 0
    (by norm_num) hok (by decide) (by decide)
  rw [show ([((2 : ℚ), 10), ((3 : ℚ), 10)]).take (0 + 1) = [((2 : ℚ), 10)] from rfl] at h
  rw [show checkTime [((2 : ℚ), 10), ((3 : ℚ), 10)] (0 + 1) = 15 from rfl] at h
  obtain ⟨h1, h2⟩ := h
  refine ⟨?_, h2⟩
  rw [h1]
  simp [intervalEvents]

lemma eraseReports_nil : eraseReports [] = [] := rfl

lemma eraseReports_cons_send (c : Command) (l : List Event) :
    eraseReports (Event.send c :: l) = Event.send c :: eraseReports l := by
  simp [eraseReports, Event.isReport]

lemma eraseReports_cons_sleep (n : ℕ) (l : List Event) :
    eraseReports (Event.sleep n :: l) = Event.sleep n :: eraseReports l := by
  simp [eraseReports, Event.isReport]

lemma eraseReports_cons_raised (l : List Event) :
    eraseReports (Event.raised :: l) = Event.raised :: eraseReports l := by
  simp [eraseReports, Event.isReport]

lemma eraseReports_cons_report (c : Command) (l : List Event) :
    eraseReports (Event.report c :: l) = eraseReports l := by
  simp [eraseReports, Event.isReport]

lemma eraseReports_append (xs ys : List Event) :
    eraseReports (xs ++ ys) = eraseReports xs ++ eraseReports ys := by
  simp [eraseReports]

lemma eraseReports_writeEvents (ok : Bool) (c : Command) :
    eraseReports (writeEvents ok c) = [Event.send c] := by
  cases ok <;> simp [writeEvents, eraseReports, Event.isReport]

lemma workoutLoop_eraseReports (okW flag : ℕ → Bool) (k0 : ℕ)
    (intervals : List (ℚ × ℕ)) :
    eraseReports (workoutLoop okW flag k0 intervals).1 =
      (workoutLoop (fun _ => true) flag k0 intervals).1 ∧
    (workoutLoop okW flag k0 intervals).2 =
      (workoutLoop (fun _ => true) flag k0 intervals).2 := by
  induction intervals generalizing k0 with
  | nil => simp [workoutLoop, eraseReports_nil]
  | cons p rest ih =>
    obtain ⟨v, d⟩ := p
    cases hf : flag k0 with
    | true => simp [workoutLoop, hf, eraseReports_nil]
    | false =>
      cases hb : toBytes2LE (targetSpeed v) with
      | none => simp [workoutLoop, hf, hb, eraseReports_cons_raised, eraseReports_nil]
      | some bs =>
        obtain ⟨ih1, ih2⟩ := ih (k0 + 1)
        cases hw : okW k0 <;>
          simp [workoutLoop, hf, hb, hw, writeEvents, eraseReports_cons_send,
            eraseReports_cons_report, eraseReports_cons_sleep, ih1, ih2]

/-- C9: a transport write failure is local to the failing command — the
failure is reported as an extra event, `_write_command` swallows the
exception, the flag transition of every operation is the same whether its
write fails or succeeds (so `pause`/`stop` leave the flag set even when
their own write fails), and erasing the failure reports from any
`start_workout` trace yields exactly the all-writes-succeed trace: a failed
`set_speed` still sleeps its interval and the loop, the remaining intervals
and the final `Pause` proceed unchanged. -/
theorem C9_write_failure_is_local :
    (∀ c, writeEvents false c = [Event.send c, Event.report c]) ∧
    (∀ op b, (runOp false op b).1 = (runOp true op b).1) ∧
    (∀ b, (runOp false .pause b).1 = true) ∧
    (∀ b, (runOp false .stop b).1 = true) ∧
    (∀ (okS okP : Bool) (okW flag : ℕ → Bool) (intervals : List (ℚ × ℕ)),
      eraseReports (startWorkoutTrace okS okP okW flag intervals) =
        startWorkoutTrace true true (fun _ => true) flag intervals) := by
  refine ⟨fun c => rfl, ?_, fun b => rfl, fun b => rfl, ?_⟩
  · intro op b
    cases op with
    | setSpeed v => cases h : toBytes2LE (targetSpeed v) <;> simp [runOp, h]
    | _ => rfl
  · intro okS okP okW flag intervals
    obtain ⟨h1, h2⟩ := workoutLoop_eraseReports okW flag 0 intervals
    simp only [startWorkoutTrace]
    rw [h2]
    cases hr : (workoutLoop (fun _ => true) flag 0 intervals).2 <;>
      cases okS <;> cases okP <;>
        simp [writeEvents, eraseReports_append, eraseReports_cons_sleep,
          eraseReports_cons_send, eraseReports_cons_report, eraseReports_nil, h1]

/-- C10: if the scaled speed `int(v * 100)` is negative or exceeds 65535, the
byte conversion in `set_speed` has no value — the call raises before any
write, so no command bytes are sent and the flag is unchanged; the encoder
yields nothing in place of a wrapped or clamped value. -/
theorem C10_out_of_range_speed_raises :
    ∀ (v : ℚ) (b ok : Bool),
      targetSpeed v < 0 ∨ 65535 < targetSpeed v →
      toBytes2LE (targetSpeed v) = none ∧
      encode (.setSpeed v) = none ∧
      runOp ok (.setSpeed v) b = (b, [Event.raised]) := by
  intro v b ok h
  have hb : toBytes2LE (targetSpeed v) = none := by
    unfold toBytes2LE
    rw [if_neg]
    rintro ⟨h1, h2⟩
    rcases h with h | h <;> omega
  exact ⟨hb, by simp [encode, hb], by simp [runOp, hb]⟩

/-- C10 witness: speed 700 m/s scales to 70000, outside the 16-bit field;
`set_speed` raises, sends nothing and leaves the flag unchanged. -/
theorem C10_witness :
    toBytes2LE (targetSpeed 700) = none ∧
    encode (.setSpeed 700) = none ∧
    runOp true (.setSpeed 700) false = (false, [Event.raised]) :=
  C10_out_of_range_speed_raises 700 false true
    (Or.inr (by norm_num [targetSpeed, pyInt]))

end Treadmill
